import Mathlib

/-!
Shallow embedding of the CaSTM repository: the TierAlloc tiered allocator
(central chunk cache, slab, size-class pool, thread heap) and the MVOSTM /
CaSTM software-transactional-memory engine (version chains, transaction
load/commit, descriptor reset, the `atomically` driver).

Every definition is translated from the C++ sources under `src/`; pointers
become `Nat` identifiers, intrusive linked lists become `List`, machine
integers become `Nat` (all the counters involved stay far below 2^32 in the
properties proved here, and the source relies on the same no-overflow
assumption), and fallible paths return `Option`.
-/

namespace CaSTM

/-! ## Global configuration (include/TierAlloc/common/GlobalConfig.hpp) -/

/-- `kChunkSize = 2 * 1024 * 1024` from GlobalConfig.hpp. -/
def kChunkSize : Nat := 2 * 1024 * 1024

/-- `kMaxCentralCacheSize = 64` from GlobalConfig.hpp. -/
def kMaxCentralCacheSize : Nat := 64

/-- `kMaxPoolRescueChecks = 4` from GlobalConfig.hpp. -/
def kMaxPoolRescueChecks : Nat := 4

/-! ## Size classes (src/TierAlloc/common/SizeClassConfig.cpp) -/

/-- `SizeClassConfig::kMinAlloc = 8`. -/
def kMinAlloc : Nat := 8

/-- `SizeClassConfig::kMaxAlloc = 256 * 1024`. -/
def kMaxAlloc : Nat := 256 * 1024

/-- `SizeClassConfig::kClassCount = 104`. -/
def kClassCount : Nat := 104

/-- One `push_range(start, end, step)` call of `SizeClassConfig::Init`:
the sizes `start, start+step, ..., ≤ end` in order. -/
def pushRange (start stop step : Nat) : List Nat :=
  (List.range ((stop - start) / step + 1)).map (fun i => start + i * step)

/-- The `class_to_size_` table exactly as `SizeClassConfig::Init` fills it:
twelve piecewise-linear ranges. (`Init` asserts the total count is
`kClassCount`; `classToSize_length` below checks that.) -/
def classToSizeTable : List Nat :=
  pushRange 8 128 8 ++ pushRange 144 256 16 ++ pushRange 288 512 32 ++
  pushRange 576 1024 64 ++ pushRange 1152 2048 128 ++ pushRange 2304 4096 256 ++
  pushRange 4608 8192 512 ++ pushRange 9216 16384 1024 ++ pushRange 18432 32768 2048 ++
  pushRange 36864 65536 4096 ++ pushRange 73728 131072 8192 ++ pushRange 147456 262144 16384

theorem classToSize_length : classToSizeTable.length = kClassCount := by decide

/-- The binary-search loop of `SizeToClass` (`while (left < right) ...`),
a lower-bound search over `class_to_size_`. -/
def sizeToClassSearch (nbytes left right : Nat) : Nat :=
  if h : left < right then
    let mid := (left + right) / 2
    if (classToSizeTable.getD mid 0) < nbytes then
      sizeToClassSearch nbytes (mid + 1) right
    else
      sizeToClassSearch nbytes left mid
  else left
termination_by right - left
decreasing_by
  · have hmid : (left + right) / 2 < right := by omega
    omega
  · have hmid : left ≤ (left + right) / 2 := by omega
    have hmid2 : (left + right) / 2 < right := by omega
    omega

/-- `SizeClassConfig::SizeToClass` (SizeClassConfig.cpp): `0` for sizes up to
`kMinAlloc`, the sentinel `kClassCount` for sizes above `kMaxAlloc`, the
shift fast path up to 128 bytes, and otherwise a binary search starting at
index 16. -/
def SizeToClass (nbytes : Nat) : Nat :=
  if nbytes ≤ kMinAlloc then 0
  else if kMaxAlloc < nbytes then kClassCount
  else if nbytes ≤ 128 then (nbytes - 1) / 8
  else sizeToClassSearch nbytes 16 (kClassCount - 1)

/-- The two paths of `ThreadHeap::allocate` (ThreadHeap.cpp): the large-object
path for `nbytes > kMaxAlloc`, otherwise the small path that indexes the
per-thread `pools_` array with `SizeToClass nbytes`. -/
inductive AllocPath where
  | large : AllocPath
  | small (classIdx : Nat) : AllocPath
deriving DecidableEq, Repr

/-- The dispatch of `ThreadHeap::allocate`: which path is taken, and with
which pool index on the small path. -/
def threadHeapAllocPath (nbytes : Nat) : AllocPath :=
  if kMaxAlloc < nbytes then AllocPath.large
  else AllocPath.small (SizeToClass nbytes)

/-! ## Central chunk cache (CentralHeap.cpp = src/unnamed/part_016,
ChunkFreelist.cpp) -/

/-- State of `CentralHeap`: the `ChunkFreelist` contents (a LIFO of chunk
identifiers, head first) plus a counter handing out fresh chunk identifiers
for the `system_allocator_.allocate` fallback. -/
structure CentralHeapState where
  freeChunks : List Nat
  nextOsChunk : Nat
deriving Repr, DecidableEq

/-- `CentralHeap::fetchChunk`: `free_list_.try_pop()`, falling back to a
fresh chunk from the system allocator. -/
def fetchChunk (s : CentralHeapState) : Option Nat × CentralHeapState :=
  match s.freeChunks with
  | c :: rest => (some c, { s with freeChunks := rest })
  | [] => (some s.nextOsChunk, { s with nextOsChunk := s.nextOsChunk + 1 })

/-- `CentralHeap::returnChunk`: null is ignored; if
`free_list_.size() >= kMaxCentralCacheSize` the chunk is released to the OS
(the free list is untouched), otherwise it is pushed onto the LIFO. -/
def returnChunk (s : CentralHeapState) (ptr : Option Nat) : CentralHeapState :=
  match ptr with
  | none => s
  | some p =>
    if kMaxCentralCacheSize ≤ s.freeChunks.length then s
    else { s with freeChunks := p :: s.freeChunks }

/-- One externally visible operation on the central heap. -/
inductive CentralOp where
  | fetch : CentralOp
  | ret (ptr : Option Nat) : CentralOp
deriving Repr, DecidableEq

/-- Apply one operation to the central-heap state. -/
def centralStep (s : CentralHeapState) : CentralOp → CentralHeapState
  | CentralOp.fetch => (fetchChunk s).2
  | CentralOp.ret p => returnChunk s p

/-- Run a sequence of operations from a starting state. -/
def centralRun (s : CentralHeapState) (ops : List CentralOp) : CentralHeapState :=
  ops.foldl centralStep s

/-- The initial central heap: empty free list. -/
def centralInit : CentralHeapState := ⟨[], 0⟩

end CaSTM

namespace CaSTM

theorem centralStep_length_le (s : CentralHeapState) (op : CentralOp)
    (h : s.freeChunks.length ≤ kMaxCentralCacheSize) :
    (centralStep s op).freeChunks.length ≤ kMaxCentralCacheSize := by
  cases op with
  | fetch =>
    cases hs : s.freeChunks with
    | nil => simp [centralStep, fetchChunk, hs, kMaxCentralCacheSize]
    | cons c rest =>
      have h2 : rest.length + 1 ≤ kMaxCentralCacheSize := by simpa [hs] using h
      simp only [centralStep, fetchChunk, hs]
      omega
  | ret p =>
    cases p with
    | none => simpa [centralStep, returnChunk] using h
    | some q =>
      simp only [centralStep, returnChunk]
      by_cases hc : kMaxCentralCacheSize ≤ s.freeChunks.length
      · simpa [hc] using h
      · simp only [hc, if_false, List.length_cons]
        omega

theorem centralRun_length_le (ops : List CentralOp) (s : CentralHeapState)
    (h : s.freeChunks.length ≤ kMaxCentralCacheSize) :
    (centralRun s ops).freeChunks.length ≤ kMaxCentralCacheSize := by
  induction ops generalizing s with
  | nil => simpa [centralRun] using h
  | cons op rest ih =>
    simpa [centralRun, List.foldl_cons] using
      ih (centralStep s op) (centralStep_length_le s op h)

/-- The binary-search loop never leaves the interval `[left, right]`:
its result is at most `right` whenever `left ≤ right`. -/
theorem sizeToClassSearch_le_aux (nbytes : Nat) :
    ∀ fuel left right : Nat, right - left ≤ fuel → left ≤ right →
      sizeToClassSearch nbytes left right ≤ right := by
  intro fuel
  induction fuel with
  | zero =>
    intro left right hf hle
    have : left = right := by omega
    rw [sizeToClassSearch]
    simp [this]
  | succ n ih =>
    intro left right hf hle
    rw [sizeToClassSearch]
    by_cases h : left < right
    · simp only [h, dite_true]
      by_cases hcmp : (classToSizeTable.getD ((left + right) / 2) 0) < nbytes
      · simp only [hcmp, if_true]
        have hmid : (left + right) / 2 < right := by omega
        exact ih ((left + right) / 2 + 1) right (by omega) (by omega)
      · simp only [hcmp, if_false]
        have hmid1 : left ≤ (left + right) / 2 := by omega
        have hmid2 : (left + right) / 2 < right := by omega
        exact Nat.le_trans (ih left ((left + right) / 2) (by omega) (by omega)) (by omega)
    · simpa [h] using hle

/-- The binary-search loop never leaves the interval `[left, right]`:
its result is at most `right` whenever `left ≤ right`. -/
theorem sizeToClassSearch_le (nbytes : Nat) :
    ∀ left right : Nat, left ≤ right → sizeToClassSearch nbytes left right ≤ right :=
  fun left right hle =>
    sizeToClassSearch_le_aux nbytes (right - left) left right (Nat.le_refl _) hle

/-- For sizes within the small range, `SizeToClass` stays strictly below
`kClassCount = 104`. -/
theorem SizeToClass_lt_of_le (nbytes : Nat) (h : nbytes ≤ kMaxAlloc) :
    SizeToClass nbytes < kClassCount := by
  unfold SizeToClass
  by_cases h1 : nbytes ≤ kMinAlloc
  · simp [h1, kClassCount]
  · have h2 : ¬ kMaxAlloc < nbytes := by omega
    simp only [h1, if_false, h2]
    by_cases h3 : nbytes ≤ 128
    · simp only [h3, if_true]
      have : (nbytes - 1) / 8 ≤ 127 / 8 := Nat.div_le_div_right (by omega)
      simp only [kClassCount]
      omega
    · simp only [h3, if_false]
      have := sizeToClassSearch_le nbytes 16 (kClassCount - 1) (by simp [kClassCount])
      simp only [kClassCount] at *
      omega

/-- For sizes above the ceiling, `SizeToClass` returns the sentinel. -/
theorem SizeToClass_sentinel (nbytes : Nat) (h : kMaxAlloc < nbytes) :
    SizeToClass nbytes = kClassCount := by
  have h1 : ¬ nbytes ≤ kMinAlloc := by
    simp only [kMinAlloc, kMaxAlloc] at *; omega
  simp [SizeToClass, h1, h]

/-- C10: `SizeToClass` returns the sentinel `kClassCount = 104` exactly for
sizes above `kMaxAlloc`; `ThreadHeap::allocate` takes the large path exactly
for those sizes, and on the small path the pool index is strictly below 104,
so the `pools_` array access is in bounds. -/
theorem c10_sizeclass_sentinel_in_bounds :
    ∀ nbytes : Nat,
      (threadHeapAllocPath nbytes = AllocPath.large ↔ kMaxAlloc < nbytes) ∧
      (kMaxAlloc < nbytes → SizeToClass nbytes = kClassCount) ∧
      (∀ i : Nat, threadHeapAllocPath nbytes = AllocPath.small i →
        i = SizeToClass nbytes ∧ i < kClassCount ∧ i < 104) := by
  intro nbytes
  refine ⟨?_, fun h => SizeToClass_sentinel nbytes h, ?_⟩
  · constructor
    · intro h
      by_contra hc
      have hc' : ¬ kMaxAlloc < nbytes := hc
      simp [threadHeapAllocPath, hc'] at h
    · intro h
      simp [threadHeapAllocPath, h]
  · intro i hi
    by_cases h : kMaxAlloc < nbytes
    · simp [threadHeapAllocPath, h] at hi
    · simp only [threadHeapAllocPath, h, if_false, AllocPath.small.injEq] at hi
      have hlt : SizeToClass nbytes < kClassCount :=
        SizeToClass_lt_of_le nbytes (by omega)
      refine ⟨hi.symm, ?_, ?_⟩ <;> simp only [kClassCount] at * <;> omega

/-- C9: the central free list never holds more than
`kMaxCentralCacheSize = 64` chunks over any operation sequence from the
initial (empty) state, because `returnChunk` releases the chunk to the OS
when the cached count is already at the cap and pushes it otherwise. -/
theorem c9_central_cache_bounded :
    (∀ ops : List CentralOp,
      (centralRun centralInit ops).freeChunks.length ≤ kMaxCentralCacheSize) ∧
    (∀ (s : CentralHeapState) (p : Nat),
      (returnChunk s (some p)).freeChunks =
        if kMaxCentralCacheSize ≤ s.freeChunks.length then s.freeChunks
        else p :: s.freeChunks) := by
  constructor
  · intro ops
    exact centralRun_length_le ops centralInit (by simp [centralInit, kMaxCentralCacheSize])
  · intro s p
    by_cases h : kMaxCentralCacheSize ≤ s.freeChunks.length <;> simp [returnChunk, h]

end CaSTM

namespace CaSTM

/-! ## Slab (src/TierAlloc/ThreadHeap/Slab.cpp, include/.../Slab.hpp)

Block pointers become `Nat` identifiers; the intrusive `local_free_list_`
and the MPSC `remote_free_list_` (an `AtomicFreeList`, i.e. a LIFO stack)
become `List Nat` with the head of the list being the head of the stack. -/

structure Slab where
  blockSize : Nat
  maxBlockCount : Nat
  allocatedCount : Nat
  bumpPtr : Nat
  endPtr : Nat
  localFreeList : List Nat
  remoteFreeList : List Nat
deriving Repr, DecidableEq

/-- `Slab::isFull` (Slab.cpp line 131): `allocated_count_ == max_block_count_`.
The remote free list and the bump frontier are not consulted. -/
def Slab.isFull (s : Slab) : Bool :=
  s.allocatedCount == s.maxBlockCount

/-- `Slab::isEmpty`: `allocated_count_ == 0`. -/
def Slab.isEmpty (s : Slab) : Bool :=
  s.allocatedCount == 0

/-- `Slab::allocFromList_`: pop the head of `local_free_list_` and bump
`allocated_count_`. The source's precondition is a non-empty list; on the
empty list this returns `none` (the callers guard against it). -/
def Slab.allocFromList (s : Slab) : Option Nat × Slab :=
  match s.localFreeList with
  | [] => (none, s)
  | p :: rest =>
    (some p, { s with localFreeList := rest, allocatedCount := s.allocatedCount + 1 })

/-- `Slab::allocFromBump_`: carve a block at `bump_ptr_`, advance the
frontier, bump `allocated_count_`. -/
def Slab.allocFromBump (s : Slab) : Option Nat × Slab :=
  (some s.bumpPtr,
   { s with bumpPtr := s.bumpPtr + s.blockSize, allocatedCount := s.allocatedCount + 1 })

/-- `Slab::reclaimRemoteMemory`: steal the whole remote stack (atomic
exchange-to-null), splice it in front of `local_free_list_` (the stolen
tail's next is pointed at the old local head), subtract the stolen count
from `allocated_count_`, and return the count. -/
def Slab.reclaimRemoteMemory (s : Slab) : Nat × Slab :=
  match s.remoteFreeList with
  | [] => (0, s)
  | stolen =>
    (stolen.length,
     { s with localFreeList := stolen ++ s.localFreeList,
              remoteFreeList := [],
              allocatedCount := s.allocatedCount - stolen.length })

/-- `Slab::allocate` (Slab.cpp): local free list first; else steal the
remote list and retry the local pop if anything was recovered; else the
bump frontier; else null. -/
def Slab.allocate (s : Slab) : Option Nat × Slab :=
  if s.localFreeList ≠ [] then s.allocFromList
  else
    let afterRemote :=
      if s.remoteFreeList ≠ [] then
        let (cnt, s') := s.reclaimRemoteMemory
        if 0 < cnt then some s'.allocFromList else none
      else none
    match afterRemote with
    | some r => r
    | none =>
      if s.bumpPtr + s.blockSize ≤ s.endPtr then s.allocFromBump
      else (none, s)

/-- `Slab::freeLocal`: push onto the local LIFO, decrement
`allocated_count_`, report whether the slab became (locally) empty. -/
def Slab.freeLocal (s : Slab) (ptr : Nat) : Bool × Slab :=
  let s' := { s with localFreeList := ptr :: s.localFreeList,
                     allocatedCount := s.allocatedCount - 1 }
  (s'.allocatedCount == 0, s')

/-- `Slab::freeRemote`: lock-free LIFO push onto `remote_free_list_`. -/
def Slab.freeRemote (s : Slab) (ptr : Nat) : Slab :=
  { s with remoteFreeList := ptr :: s.remoteFreeList }

/-! ## Size-class pool (SizeClassPool part of
src/TierAlloc/ThreadHeap/ChunkMetadata.cpp, include/.../SizeClassPool.hpp) -/

/-- State of one `SizeClassPool`: `current_slab_`, `partial_list_` and
`full_list_` (both `SlabList`s, head first). -/
structure PoolState where
  currentSlab : Option Slab
  partialList : List Slab
  fullList : List Slab
deriving Repr, DecidableEq

/-- The `while (!full_list_.empty() && checks < kMaxPoolRescueChecks)` loop
of `SizeClassPool::allocFromRescue_`, with `fuel` the remaining check
budget. A victim whose `reclaimRemoteMemory()` recovers something is
removed from the list and installed as current (`current_slab_->allocate()`
is returned together with the slab's post-allocation state); an
unsuccessful victim is rotated to the tail via `move_head_to_tail()`. -/
def rescueGo : Nat → List Slab → Option Nat × Option Slab × List Slab
  | 0, l => (none, none, l)
  | _ + 1, [] => (none, none, [])
  | fuel + 1, v :: rest =>
    let (cnt, v') := v.reclaimRemoteMemory
    if 0 < cnt then
      let (p, v'') := v'.allocate
      (p, some v'', rest)
    else rescueGo fuel (rest ++ [v])

/-- `SizeClassPool::allocFromRescue_` wrapped at the pool level: on success
the victim becomes `current_slab_`; in every case the (possibly rotated)
full list is written back. -/
def allocFromRescue (pool : PoolState) : Option Nat × PoolState :=
  match rescueGo kMaxPoolRescueChecks pool.fullList with
  | (p, some cur, full') => (p, { pool with currentSlab := some cur, fullList := full' })
  | (p, none, full') => (p, { pool with fullList := full' })

/-- `SizeClassPool::allocFromPartial_`: pop the front of `partial_list_`,
install it as current, allocate from it. -/
def allocFromPartial (pool : PoolState) (s : Slab) (rest : List Slab) :
    Option Nat × PoolState :=
  let (p, s') := s.allocate
  (p, { pool with currentSlab := some s', partialList := rest })

/-- Steps 3–5 of `SizeClassPool::allocate` (after the current slab has been
dealt with): partial list, rescue scan, then a fresh slab. Building a fresh
slab goes through `ThreadChunkCache::fetchChunk` and `Slab::CreateAt`,
which the rescue claims never reach; it is abstracted as the `allocNew`
argument. -/
def poolAllocateTail (allocNew : PoolState → Option Nat × PoolState)
    (pool : PoolState) : Option Nat × PoolState :=
  match pool.partialList with
  | s :: rest => allocFromPartial pool s rest
  | [] =>
    if pool.fullList ≠ [] then
      match allocFromRescue pool with
      | (some p, pool') => (some p, pool')
      | (none, pool') => allocNew pool'
    else allocNew pool

/-- `SizeClassPool::allocate` (ChunkMetadata.cpp lines 142–161): try the
current slab; on its failure move it to the tail of `full_list_`, clear
current, and fall through to the partial list, the rescue scan, and the
fresh-slab path in that order. -/
def poolAllocate (allocNew : PoolState → Option Nat × PoolState)
    (pool : PoolState) : Option Nat × PoolState :=
  match pool.currentSlab with
  | some c =>
    match c.allocate with
    | (some p, c') => (some p, { pool with currentSlab := some c' })
    | (none, c') =>
      poolAllocateTail allocNew
        { pool with currentSlab := none, fullList := pool.fullList ++ [c'] }
  | none => poolAllocateTail allocNew pool

/-- Default slab used with `List.getD`. -/
def defaultSlab : Slab :=
  ⟨0, 0, 0, 0, 0, [], []⟩

/-- A fully-carved slab (all four 64-byte blocks allocated, bump frontier
exhausted) with one remotely freed block pending in `remote_free_list_`. -/
def slabFullRemote : Slab :=
  { blockSize := 64, maxBlockCount := 4, allocatedCount := 4,
    bumpPtr := 320, endPtr := 320,
    localFreeList := [], remoteFreeList := [128] }

theorem reclaim_of_ne_nil (s : Slab) (h : s.remoteFreeList ≠ []) :
    s.reclaimRemoteMemory =
      (s.remoteFreeList.length,
       { s with localFreeList := s.remoteFreeList ++ s.localFreeList,
                remoteFreeList := [],
                allocatedCount := s.allocatedCount - s.remoteFreeList.length }) := by
  cases hr : s.remoteFreeList with
  | nil => exact absurd hr h
  | cons a rest =>
    simp [Slab.reclaimRemoteMemory, hr]

theorem reclaim_of_nil (s : Slab) (h : s.remoteFreeList = []) :
    s.reclaimRemoteMemory = (0, s) := by
  simp [Slab.reclaimRemoteMemory, h]

theorem allocate_of_exhausted (s : Slab) (hl : s.localFreeList = [])
    (hr : s.remoteFreeList = []) (hb : s.endPtr < s.bumpPtr + s.blockSize) :
    s.allocate = (none, s) := by
  simp [Slab.allocate, hl, hr, Nat.not_le_of_lt hb]

theorem allocate_after_reclaim (s : Slab) (hr : s.remoteFreeList ≠ []) :
    (s.reclaimRemoteMemory.2.allocate).1 = s.remoteFreeList.head? := by
  rw [reclaim_of_ne_nil s hr]
  cases hrr : s.remoteFreeList with
  | nil => exact absurd hrr hr
  | cons a rest => simp [Slab.allocate, Slab.allocFromList, hrr]

/-- Characterisation of the rescue loop: if the first `i` heads have empty
remote lists and the `i`-th head (with `i` below both the fuel and the list
length) has a non-empty one, the loop reclaims that head, allocates from
it, removes it, and has rotated the `i` unsuccessful heads to the tail. -/
theorem rescueGo_spec :
    ∀ (i fuel : Nat) (l : List Slab), i < fuel → i < l.length →
      (∀ j, j < i → (l.getD j defaultSlab).remoteFreeList = []) →
      (l.getD i defaultSlab).remoteFreeList ≠ [] →
      rescueGo fuel l =
        (((l.getD i defaultSlab).reclaimRemoteMemory.2.allocate).1,
         some ((l.getD i defaultSlab).reclaimRemoteMemory.2.allocate).2,
         l.drop (i + 1) ++ l.take i) := by
  intro i
  induction i with
  | zero =>
    intro fuel l hfuel hlen hbefore hvictim
    match fuel, l with
    | f + 1, v :: rest =>
      have hv : v.remoteFreeList ≠ [] := by simpa using hvictim
      have hcnt : 0 < v.reclaimRemoteMemory.1 := by
        rw [reclaim_of_ne_nil v hv]
        simpa using List.length_pos.mpr hv
      simp only [rescueGo, List.getD_cons_zero, List.drop_succ_cons, List.drop_zero,
        List.take_zero, List.append_nil]
      simp only [hcnt, if_true]
  | succ i ih =>
    intro fuel l hfuel hlen hbefore hvictim
    match fuel, l with
    | f + 1, v :: rest =>
      have hv : v.remoteFreeList = [] := by
        simpa using hbefore 0 (Nat.succ_pos i)
      have hrest : i < rest.length := by
        simpa using Nat.lt_of_succ_lt_succ hlen
      have hgetrot : ∀ j, j ≤ i → ((rest ++ [v]).getD j defaultSlab) =
          ((v :: rest).getD (j + 1) defaultSlab) := by
        intro j hj
        rw [List.getD_cons_succ]
        exact List.getD_append _ _ _ _ (by omega)
      have step : rescueGo (f + 1) (v :: rest) = rescueGo f (rest ++ [v]) := by
        simp only [rescueGo, reclaim_of_nil v hv]
        simp
      rw [step]
      rw [ih f (rest ++ [v]) (by omega)
        (by simpa using Nat.lt_of_lt_of_le hrest (by simp))
        (fun j hj => by rw [hgetrot j (by omega)]; exact hbefore (j + 1) (by omega))
        (by rw [hgetrot i (le_refl i)]; exact hvictim)]
      rw [hgetrot i (le_refl i)]
      have hdrop : (rest ++ [v]).drop (i + 1) = rest.drop (i + 1) ++ [v] := by
        rw [List.drop_append_eq_append_drop]
        have : i + 1 - rest.length = 0 := by omega
        simp [this]
      have htake : (rest ++ [v]).take i = rest.take i := by
        rw [List.take_append_eq_append_take]
        have : i - rest.length = 0 := by omega
        simp [this]
      rw [hdrop, htake]
      simp

/-- C7 counterexample: a fully-carved slab with a pending remote free.
`Slab::isFull()` returns `true` for it, while the claim's characterisation
(`allocated == max AND remote empty AND bump exhausted`, in particular
`false` whenever the remote list is non-empty) demands `false`. The
repository's own test (test_slab.cpp, `EXPECT_TRUE(meta->isFull())` after
`freeRemote`) pins this behaviour. -/
theorem c7_isFull_counterexample :
    slabFullRemote.isFull = true ∧
    slabFullRemote.remoteFreeList ≠ [] ∧
    ¬ (slabFullRemote.isFull = true ↔
        (slabFullRemote.allocatedCount = slabFullRemote.maxBlockCount ∧
         slabFullRemote.remoteFreeList = [] ∧
         slabFullRemote.endPtr < slabFullRemote.bumpPtr + slabFullRemote.blockSize)) := by
  refine ⟨by decide, by decide, ?_⟩
  intro h
  have := h.mp (by decide)
  exact absurd this.2.1 (by decide)

/-- C7 (amended): `Slab::isFull()` tests only `allocated_count_ ==
max_block_count_`; it returns `true` (not `false`) for a fully-carved slab
whose remote free list is non-empty, even though such a slab still
satisfies an `allocate()` from the reclaimed remote blocks. -/
theorem c7_isFull_amended (s : Slab) :
    (s.isFull = true ↔ s.allocatedCount = s.maxBlockCount) ∧
    (s.allocatedCount = s.maxBlockCount → s.localFreeList = [] →
      s.remoteFreeList ≠ [] →
      s.isFull = true ∧ (s.allocate).1 = s.remoteFreeList.head? ∧
      (s.allocate).1 ≠ none) := by
  have key : s.localFreeList = [] → s.remoteFreeList ≠ [] →
      (s.allocate).1 = s.remoteFreeList.head? := by
    intro hl hr
    have hcnt : 0 < s.reclaimRemoteMemory.1 := by
      rw [reclaim_of_ne_nil s hr]
      simpa using List.length_pos.mpr hr
    have hstep : s.allocate = s.reclaimRemoteMemory.2.allocFromList := by
      simp only [Slab.allocate, hl, ne_eq, not_true_eq_false, if_false, ite_not, hr,
        not_false_eq_true, if_true, hcnt]
    rw [hstep, reclaim_of_ne_nil s hr]
    cases hrr : s.remoteFreeList with
    | nil => exact absurd hrr hr
    | cons a rest => simp [Slab.allocFromList, hrr]
  constructor
  · simp [Slab.isFull]
  · intro hmax hl hr
    refine ⟨by simp [Slab.isFull, hmax], key hl hr, ?_⟩
    rw [key hl hr]
    cases hrr : s.remoteFreeList with
    | nil => exact absurd hrr hr
    | cons a rest => simp

/-- C7 witness: the amended characterisation evaluated on the concrete
fully-carved slab with a pending remote free. -/
theorem c7_isFull_amended_witness :
    slabFullRemote.isFull = true ∧
    (slabFullRemote.allocate).1 = some 128 := by
  have h := (c7_isFull_amended slabFullRemote).2 (by decide) (by decide) (by decide)
  exact ⟨h.1, by rw [h.2.1]; rfl⟩

/-- C8: when `SizeClassPool::allocate` finds the current slab exhausted,
the partial list empty and the full list non-empty, it scans at most
`kMaxPoolRescueChecks = 4` heads of the full list (the exhausted current
slab having been pushed to its tail): the first head whose
`reclaimRemoteMemory()` recovers a block is removed, installed as
`current_slab_`, and satisfies the allocation with the first reclaimed
block; every unsuccessful examined head is rotated to the tail. -/
theorem c8_rescue_scan (allocNew : PoolState → Option Nat × PoolState)
    (pool : PoolState) (cs : Slab) (i : Nat)
    (hcur : pool.currentSlab = some cs)
    (hl : cs.localFreeList = []) (hr : cs.remoteFreeList = [])
    (hb : cs.endPtr < cs.bumpPtr + cs.blockSize)
    (hpart : pool.partialList = [])
    (hi4 : i < kMaxPoolRescueChecks)
    (hilen : i < (pool.fullList ++ [cs]).length)
    (hbefore : ∀ j, j < i →
      (((pool.fullList ++ [cs]).getD j defaultSlab)).remoteFreeList = [])
    (hvictim : (((pool.fullList ++ [cs]).getD i defaultSlab)).remoteFreeList ≠ []) :
    poolAllocate allocNew pool =
      (((pool.fullList ++ [cs]).getD i defaultSlab).remoteFreeList.head?,
       { currentSlab :=
           some (((pool.fullList ++ [cs]).getD i defaultSlab).reclaimRemoteMemory.2.allocate).2,
         partialList := [],
         fullList := (pool.fullList ++ [cs]).drop (i + 1) ++
                     (pool.fullList ++ [cs]).take i }) ∧
    ((pool.fullList ++ [cs]).getD i defaultSlab).remoteFreeList.head? ≠ none := by
  have hcs : cs.allocate = (none, cs) := allocate_of_exhausted cs hl hr hb
  have hspec := rescueGo_spec i kMaxPoolRescueChecks (pool.fullList ++ [cs])
    hi4 hilen hbefore hvictim
  have hhead := allocate_after_reclaim ((pool.fullList ++ [cs]).getD i defaultSlab) hvictim
  constructor
  · simp only [poolAllocate, hcur, hcs, poolAllocateTail, hpart]
    have hne : pool.fullList ++ [cs] ≠ [] := by simp
    simp only [hne, ne_eq, not_false_eq_true, if_true, allocFromRescue, hspec, hhead]
    cases hh : ((pool.fullList ++ [cs]).getD i defaultSlab).remoteFreeList with
    | nil => exact absurd hh hvictim
    | cons a rest => simp [hh]
  · cases hh : ((pool.fullList ++ [cs]).getD i defaultSlab).remoteFreeList with
    | nil => exact absurd hh hvictim
    | cons a rest => simp

/-- C8 witness: a pool whose current slab is exhausted, whose partial list
is empty, and whose full list holds one unrescuable slab followed by one
with a pending remote free; the rescue scan recovers the second head. -/
theorem c8_rescue_scan_witness :
    poolAllocate (fun p => (none, p))
        { currentSlab := some { blockSize := 64, maxBlockCount := 4, allocatedCount := 4,
                                bumpPtr := 320, endPtr := 320,
                                localFreeList := [], remoteFreeList := [] },
          partialList := [],
          fullList := [defaultSlab, slabFullRemote] } =
      (some 128,
       { currentSlab := some { blockSize := 64, maxBlockCount := 4, allocatedCount := 4,
                               bumpPtr := 320, endPtr := 320,
                               localFreeList := [], remoteFreeList := [] },
         partialList := [],
         fullList := [{ blockSize := 64, maxBlockCount := 4, allocatedCount := 4,
                        bumpPtr := 320, endPtr := 320,
                        localFreeList := [], remoteFreeList := [] }, defaultSlab] }) := by
  have h := c8_rescue_scan (fun p => (none, p))
      { currentSlab := some { blockSize := 64, maxBlockCount := 4, allocatedCount := 4,
                              bumpPtr := 320, endPtr := 320,
                              localFreeList := [], remoteFreeList := [] },
        partialList := [],
        fullList := [defaultSlab, slabFullRemote] }
      { blockSize := 64, maxBlockCount := 4, allocatedCount := 4,
        bumpPtr := 320, endPtr := 320, localFreeList := [], remoteFreeList := [] }
      1 rfl rfl rfl (by decide) rfl (by decide) (by decide)
      (by intro j hj; interval_cases j; decide) (by decide)
  rw [h.1]
  decide

end CaSTM

namespace CaSTM

/-! ## Version chains and `TMVar` (include/MVOSTM/TMVar.hpp,
include/MVOSTM/VersionNode.hpp)

A `VersionNode<T>` has `write_ts`, `payload` and `prev`; the chain hanging
off a `TMVar`'s `head_` becomes a `List (Version α)` whose head is the
node `head_` points at and whose order follows the `prev` links. -/

/-- One published `VersionNode<T>`: its commit timestamp and payload. -/
structure Version (α : Type) where
  write_ts : Nat
  payload : α
deriving Repr, DecidableEq

/-- `TMVar<T>::MAX_HISTORY = 8` (TMVar.hpp). -/
def MAX_HISTORY : Nat := 8

/-- The `TMVar` constructor: publish a genesis node `{write_ts = 0,
prev = null, payload = init}`. -/
def tmvarInit {α : Type} (init : α) : List (Version α) :=
  [⟨0, init⟩]

/-- `TMVar<T>::committer(tmvar, node, wts)` (TMVar.hpp lines 71–97) acting
on the chain: patch the node's timestamp, link it in front of the old head
and publish it; then walk `prev` while `curr && depth < MAX_HISTORY`
(after which `curr` is `drop MAX_HISTORY` of the new chain), and if that
node exists and has a predecessor (`curr && curr->prev`, i.e. the new
chain has at least `MAX_HISTORY + 2` nodes), null out its `prev` and hand
the detached suffix to `EBRManager::retire` with the chain deleter.
Returns `(retained chain, retired suffix)`. -/
def committer {α : Type} (wv : Nat) (p : α) (chain : List (Version α)) :
    List (Version α) × List (Version α) :=
  match (Version.mk wv p :: chain).drop MAX_HISTORY with
  | _ :: _ :: _ =>
    ((Version.mk wv p :: chain).take (MAX_HISTORY + 1),
     (Version.mk wv p :: chain).drop (MAX_HISTORY + 1))
  | _ => (Version.mk wv p :: chain, [])

/-- The chain invariant of §3: `write_ts` strictly decreases from head
toward tail. -/
def ChainSorted {α : Type} (chain : List (Version α)) : Prop :=
  chain.Pairwise (fun a b => b.write_ts < a.write_ts)

/-- What `committer` retains and retires, as a take/drop split of the
freshly linked chain. -/
theorem committer_take_drop {α : Type} (wv : Nat) (p : α) (chain : List (Version α)) :
    committer wv p chain =
      ((Version.mk wv p :: chain).take (MAX_HISTORY + 1),
       (Version.mk wv p :: chain).drop (MAX_HISTORY + 1)) := by
  unfold committer
  cases hdrop : (Version.mk wv p :: chain).drop MAX_HISTORY with
  | nil =>
    have hlen : (Version.mk wv p :: chain).length ≤ MAX_HISTORY := by
      simpa using List.drop_eq_nil_iff.mp hdrop
    rw [List.take_of_length_le (by omega), List.drop_eq_nil_of_le (by omega)]
  | cons a tail =>
    cases tail with
    | nil =>
      have h1 := List.length_drop MAX_HISTORY (Version.mk wv p :: chain)
      rw [hdrop] at h1
      have hlen : (Version.mk wv p :: chain).length ≤ MAX_HISTORY + 1 := by
        simp only [List.length_cons, List.length_nil] at h1 ⊢
        omega
      rw [List.take_of_length_le hlen, List.drop_eq_nil_of_le hlen]
    | cons b tail2 => rfl

/-- The length retained by `committer` is `min (length + 1) (MAX_HISTORY + 1)`. -/
theorem committer_retained_length {α : Type} (wv : Nat) (p : α)
    (chain : List (Version α)) :
    (committer wv p chain).1.length =
      min (chain.length + 1) (MAX_HISTORY + 1) := by
  rw [committer_take_drop]
  simp only [List.length_take, List.length_cons]
  omega

/-- In a strictly decreasing chain every element's timestamp is bounded by
the head's. -/
theorem chainSorted_head_max {α : Type} (hd : Version α) (tl : List (Version α))
    (h : ChainSorted (hd :: tl)) :
    ∀ v ∈ tl, v.write_ts < hd.write_ts := by
  intro v hv
  exact (List.pairwise_cons.mp h).1 v hv

/-- An eight-node chain with timestamps 8 down to 1 (as produced by eight
prior commits on top of an already pruned-away history). -/
def chain8 : List (Version Nat) :=
  [⟨8, 8⟩, ⟨7, 7⟩, ⟨6, 6⟩, ⟨5, 5⟩, ⟨4, 4⟩, ⟨3, 3⟩, ⟨2, 2⟩, ⟨1, 1⟩]

/-- C3 counterexample: committing onto an eight-node chain leaves a chain
of nine nodes reachable from the head — more than `MAX_HISTORY = 8` —
because the pruning walk only cuts below the node reached after
`MAX_HISTORY` hops. -/
theorem c3_prune_counterexample :
    (committer 9 9 chain8).1.length = 9 ∧
    ¬ ((committer 9 9 chain8).1.length ≤ MAX_HISTORY) ∧
    (committer 9 9 chain8).2 = [] := by
  refine ⟨by decide, by decide, by decide⟩

/-- C3 (amended): after `TMVar::committer` returns, the chain reachable
from the head has at most `MAX_HISTORY + 1 = 9` nodes: the retained chain
is the first `MAX_HISTORY + 1` nodes of the freshly linked chain, the
detached suffix (everything past the `MAX_HISTORY`-th link, whose `prev`
is nulled) is exactly the rest, and it is the suffix handed to EBR with
the chain deleter. -/
theorem c3_prune_amended {α : Type} (wv : Nat) (p : α) (chain : List (Version α)) :
    (committer wv p chain).1 = (Version.mk wv p :: chain).take (MAX_HISTORY + 1) ∧
    (committer wv p chain).2 = (Version.mk wv p :: chain).drop (MAX_HISTORY + 1) ∧
    (committer wv p chain).1.length ≤ MAX_HISTORY + 1 ∧
    (committer wv p chain).1 ++ (committer wv p chain).2 =
      Version.mk wv p :: chain := by
  rw [committer_take_drop]
  refine ⟨rfl, rfl, ?_, by simp⟩
  exact List.length_take_le (MAX_HISTORY + 1) (Version.mk wv p :: chain)

/-- C5: the genesis chain is the single node with timestamp 0 (so the head
is never null and the chain is trivially strictly decreasing); and any
`committer` call whose timestamp exceeds the current head's preserves the
invariant: the new chain is non-empty, strictly decreasing, and an initial
segment of the freshly linked chain — every retained published node keeps
its original `write_ts` and `payload`. -/
theorem c5_chain_invariants {α : Type} :
    (∀ init : α, tmvarInit init ≠ [] ∧ ChainSorted (tmvarInit init) ∧
      (tmvarInit init).length = 1) ∧
    (∀ (wv : Nat) (p : α) (hd : Version α) (tl : List (Version α)),
      ChainSorted (hd :: tl) → hd.write_ts < wv →
      (committer wv p (hd :: tl)).1 ≠ [] ∧
      ChainSorted (committer wv p (hd :: tl)).1 ∧
      ∃ t, (committer wv p (hd :: tl)).1 ++ t = Version.mk wv p :: hd :: tl) := by
  constructor
  · intro init
    refine ⟨by simp [tmvarInit], ?_, by simp [tmvarInit]⟩
    simp [ChainSorted, tmvarInit]
  · intro wv p hd tl hsorted hlt
    have hnew : ChainSorted (Version.mk wv p :: hd :: tl) := by
      rw [ChainSorted, List.pairwise_cons]
      refine ⟨?_, hsorted⟩
      intro v hv
      rcases List.mem_cons.mp hv with hv | hv
      · simpa [hv] using hlt
      · exact Nat.lt_trans (chainSorted_head_max hd tl hsorted v hv) hlt
    rw [committer_take_drop]
    refine ⟨by simp, ?_, ?_⟩
    · exact List.Pairwise.sublist (List.take_sublist _ _) hnew
    · exact ⟨(Version.mk wv p :: hd :: tl).drop (MAX_HISTORY + 1), by simp⟩

/-- C5 witness: the invariant-preservation branch applied to a concrete
two-node sorted chain and a strictly larger commit timestamp. -/
theorem c5_chain_invariants_witness :
    (committer 5 77 [Version.mk 3 1, Version.mk 0 0]).1 ≠ [] ∧
    ChainSorted (committer 5 77 [Version.mk 3 1, Version.mk 0 0]).1 := by
  have h := (c5_chain_invariants (α := Nat)).2 5 77 (Version.mk 3 1) [Version.mk 0 0]
    (by simp [ChainSorted]) (by decide)
  exact ⟨h.1, h.2.1⟩

/-! ## Transaction::load, MVOSTM revision (src/unnamed/part_011 lines 68–104)

A `WriteLogEntry` keeps the target `TMVar`'s address and the preconstructed
version node (`new_node`), which commit nulls out after publication. The
two `StripedLockTable::is_locked(&var)` reads in `load` (the pre-check
before the read-set append and the post-check before returning) are
modelled by the two booleans `lockedPre` and `lockedPost`; the read-set
append itself has no effect on the returned value and is elided here. -/

/-- A `WriteLogEntry` as `Transaction::load`/`commit` see it: the `TMVar`
address and the optional `new_node` (set to null after publication). -/
structure WriteEntry (α : Type) where
  tmvarAddr : Nat
  newNode : Option (Version α)
deriving Repr, DecidableEq

/-- Result of `Transaction::load`: either the `RetryException` control-flow
signal or a payload. -/
inductive LoadResult (α : Type) where
  | retry : LoadResult α
  | value (v : α) : LoadResult α
deriving Repr, DecidableEq

/-- `Transaction::load` of the MVOSTM revision (part_011): read-your-own-
writes scan of the write set in reverse; pre lock check (throw `Retry` if
the stripe is observed locked); strict version check (`Retry` if the head
is null or newer than `read_version`); post lock check; otherwise return
the head's payload. (When the entry found in the write set has a nulled
`new_node` the source dereferences null; that state is unreachable during
an attempt and is mapped to `retry` here.) -/
def mvLoad {α : Type} (wset : List (WriteEntry α)) (varAddr : Nat)
    (lockedPre lockedPost : Bool) (chain : List (Version α)) (rv : Nat) :
    LoadResult α :=
  match wset.reverse.find? (fun e => e.tmvarAddr == varAddr) with
  | some e =>
    match e.newNode with
    | some n => LoadResult.value n.payload
    | none => LoadResult.retry
  | none =>
    if lockedPre then LoadResult.retry
    else
      match chain with
      | [] => LoadResult.retry
      | hd :: _ =>
        if rv < hd.write_ts then LoadResult.retry
        else if lockedPost then LoadResult.retry
        else LoadResult.value hd.payload

/-- C4 counterexample: the variable is not in the write set, the head
version is visible (`write_ts = 0 ≤ rv = 0`), yet `load` raises `Retry`
because the pre lock check observes the stripe locked — where the claim
says the visible head's payload is returned. -/
theorem c4_load_counterexample :
    (Version.mk 0 (42 : Nat)).write_ts ≤ 0 ∧
    mvLoad ([] : List (WriteEntry Nat)) 0 true false [Version.mk 0 42] 0 =
      LoadResult.retry ∧
    ¬ (mvLoad ([] : List (WriteEntry Nat)) 0 true false [Version.mk 0 42] 0 =
      LoadResult.value 42) := by
  refine ⟨by decide, by decide, by decide⟩

/-- C4 (amended): for a variable not in the write set, `load` additionally
raises `Retry` whenever the pre- or post-check observes the stripe lock
held; when both observe it free, `Retry` is raised exactly when the head
is null or newer than `read_version`, and otherwise the head's payload —
which is the first chain version with `write_ts ≤ read_version` — is
returned. -/
theorem c4_load_amended {α : Type} (wset : List (WriteEntry α)) (varAddr : Nat)
    (lockedPre lockedPost : Bool) (chain : List (Version α)) (rv : Nat)
    (hnot : ∀ e ∈ wset, e.tmvarAddr ≠ varAddr) :
    (lockedPre = true → mvLoad wset varAddr lockedPre lockedPost chain rv =
      LoadResult.retry) ∧
    (∀ v : α, mvLoad wset varAddr lockedPre lockedPost chain rv = LoadResult.value v →
      lockedPre = false ∧ lockedPost = false ∧
      ∃ hd tl, chain = hd :: tl ∧ hd.write_ts ≤ rv ∧ v = hd.payload ∧
        chain.find? (fun x => decide (x.write_ts ≤ rv)) = some hd) ∧
    (lockedPre = false → lockedPost = false →
      (mvLoad wset varAddr lockedPre lockedPost chain rv = LoadResult.retry ↔
        chain.head?.all (fun hd => decide (rv < hd.write_ts)) = true)) := by
  have hfind : wset.reverse.find? (fun e => e.tmvarAddr == varAddr) = none := by
    rw [List.find?_eq_none]
    intro e he
    simpa using hnot e (List.mem_reverse.mp he)
  constructor
  · intro hpre
    simp [mvLoad, hfind, hpre]
  constructor
  · intro v hv
    by_cases hpre : lockedPre
    · simp [mvLoad, hfind, hpre] at hv
    · cases hchain : chain with
      | nil => simp [mvLoad, hfind, hpre, hchain] at hv
      | cons hd tl =>
        by_cases hts : rv < hd.write_ts
        · simp [mvLoad, hfind, hpre, hchain, hts] at hv
        · by_cases hpost : lockedPost
          · simp [mvLoad, hfind, hpre, hchain, hts, hpost] at hv
          · have hval : v = hd.payload := by
              simpa [mvLoad, hfind, hpre, hchain, hts, hpost, eq_comm] using hv
            refine ⟨by simpa using hpre, by simpa using hpost,
              hd, tl, rfl, by omega, hval, ?_⟩
            exact List.find?_cons_of_pos _ (by simpa using Nat.le_of_not_lt hts)
  · intro hpre hpost
    cases hchain : chain with
    | nil => simp [mvLoad, hfind, hpre, hchain]
    | cons hd tl =>
      by_cases hts : rv < hd.write_ts
      · simp [mvLoad, hfind, hpre, hchain, hts, hpost]
      · simp [mvLoad, hfind, hpre, hchain, hts, hpost]

/-- C4 witness: the amended characterisation at a concrete unlocked state
with a visible head: `Retry` is not raised. -/
theorem c4_load_amended_witness :
    mvLoad ([] : List (WriteEntry Nat)) 0 false false [Version.mk 3 7, Version.mk 0 1] 5 ≠
      LoadResult.retry := by
  have h := (c4_load_amended ([] : List (WriteEntry Nat)) 0 false false
    [Version.mk 3 7, Version.mk 0 1] 5 (by intro e he; simp at he)).2.2 rfl rfl
  intro hres
  have := h.mp hres
  simp at this

/-! ## Striped lock table and `Transaction::lockWriteSet`
(include/MVOSTM/StripedLockTable.hpp, src/unnamed/part_011 lines 200–216,
include/MVOSTM/Transaction.hpp lines 135–151)

`StripedLockTable` maps an address to one of `kTableSize = 2^20` stripes
via `std::hash<const void*>{}(addr) & kTableMask`; the hash itself is
implementation defined (libstdc++ uses the identity on the pointer bits),
so it is kept as a parameter `hashPtr`, and `& kTableMask` is `% 2^20`.
`lockWriteSet` collects the `tmvar_addr` of every write-set entry into
`lock_set_`, `std::sort`s it ascending, `std::unique`-erases adjacent
duplicates, and then calls `lock_table.lock(addr)` on each survivor in
order. -/

/-- `StripedLockTable::kTableSize = 1 << 20`. -/
def kLockTableSize : Nat := 1 <<< 20

/-- `getEntry_`'s stripe computation: `hash(addr) & kTableMask`. -/
def stripeIndex (hashPtr : Nat → Nat) (addr : Nat) : Nat :=
  hashPtr addr % kLockTableSize

/-- `std::unique` + `erase` on a list: drop adjacent duplicates, keeping
the first element of each run. -/
def uniqueConsec : List Nat → List Nat
  | [] => []
  | [a] => [a]
  | a :: b :: rest =>
    if a = b then uniqueConsec (b :: rest) else a :: uniqueConsec (b :: rest)

/-- The `lock_set_` that `Transaction::lockWriteSet` builds: the write-set
entries' `tmvar_addr`s, sorted ascending (`std::sort`, modelled by
insertion sort: any sorted permutation) and adjacent-deduplicated
(`std::unique`). -/
def mvLockSet (wsetAddrs : List Nat) : List Nat :=
  uniqueConsec (List.insertionSort (· ≤ ·) wsetAddrs)

/-- The sequence of stripes on which `lock_table.lock(addr)` is invoked by
the final loop of `lockWriteSet`, in order. -/
def mvStripeAcquisitions (hashPtr : Nat → Nat) (wsetAddrs : List Nat) : List Nat :=
  (mvLockSet wsetAddrs).map (stripeIndex hashPtr)

theorem mem_uniqueConsec : ∀ (l : List Nat) (x : Nat), x ∈ uniqueConsec l ↔ x ∈ l := by
  intro l
  induction l with
  | nil => intro x; simp [uniqueConsec]
  | cons a rest ih =>
    intro x
    cases rest with
    | nil => simp [uniqueConsec]
    | cons b rest2 =>
      by_cases hab : a = b
      · subst hab
        simp only [uniqueConsec, if_true, ih x]
        constructor
        · intro h; exact List.mem_cons_of_mem a h
        · intro h
          rcases List.mem_cons.mp h with h | h
          · exact h ▸ List.mem_cons_self a _
          · exact h
      · simp only [uniqueConsec, hab, if_false, List.mem_cons, ih x]

theorem uniqueConsec_chain_lt :
    ∀ l : List Nat, l.Sorted (· ≤ ·) → (uniqueConsec l).Pairwise (· < ·) := by
  intro l
  induction l with
  | nil => intro _; simp [uniqueConsec]
  | cons a rest ih =>
    intro hsort
    have hsort' : rest.Sorted (· ≤ ·) := hsort.of_cons
    cases rest with
    | nil => simp [uniqueConsec]
    | cons b rest2 =>
      by_cases hab : a = b
      · subst hab
        simpa [uniqueConsec] using ih hsort'
      · have hle : a ≤ b := (List.sorted_cons.mp hsort).1 b (List.mem_cons_self b rest2)
        have halt : a < b := Nat.lt_of_le_of_ne hle hab
        simp only [uniqueConsec, hab, if_false]
        rw [List.pairwise_cons]
        refine ⟨?_, ih hsort'⟩
        intro x hx
        have hxmem : x ∈ b :: rest2 := (mem_uniqueConsec _ x).mp hx
        rcases List.mem_cons.mp hxmem with h | h
        · exact h ▸ halt
        · have : b ≤ x := (List.sorted_cons.mp hsort').1 x h
          omega

/-- Two distinct members of a list that collide under `f` give `f a` a
count of at least two in the mapped list. -/
theorem count_map_ge_two {f : Nat → Nat} {L : List Nat} {a b : Nat}
    (ha : a ∈ L) (hb : b ∈ L) (hne : a ≠ b) (hf : f a = f b) :
    2 ≤ (L.map f).count (f a) := by
  obtain ⟨s, t, rfl⟩ := List.append_of_mem ha
  have hmema : (f a) ∈ [f a] := List.mem_singleton.mpr rfl
  rcases List.mem_append.mp hb with hbs | hbt
  · have h1 : f a ∈ s.map f := by
      rw [hf]; exact List.mem_map_of_mem f hbs
    have h2 : 1 ≤ (s.map f).count (f a) := List.count_pos_iff.mpr h1
    simp only [List.map_append, List.count_append, List.map_cons, List.count_cons]
    simp only [beq_self_eq_true, if_true]
    omega
  · rcases List.mem_cons.mp hbt with h | h
    · exact absurd h.symm hne
    · have h1 : f a ∈ t.map f := by
        rw [hf]; exact List.mem_map_of_mem f h
      have h2 : 1 ≤ (t.map f).count (f a) := List.count_pos_iff.mpr h1
      simp only [List.map_append, List.count_append, List.map_cons, List.count_cons]
      simp only [beq_self_eq_true, if_true]
      omega

/-- C2 counterexample: a write set of two distinct `TMVar` addresses that
hash to the same stripe (with libstdc++'s identity pointer hash, addresses
`0` and `2^20`). The built lock set holds both addresses — it is not the
deduplicated list of stripe indices — and stripe `0`'s lock is acquired
twice, not at most once. -/
theorem c2_lockset_counterexample :
    mvLockSet [0, 1048576] = [0, 1048576] ∧
    mvStripeAcquisitions (fun a => a) [0, 1048576] = [0, 0] ∧
    ¬ (mvStripeAcquisitions (fun a => a) [0, 1048576]).Nodup ∧
    mvLockSet [0, 1048576] ≠
      uniqueConsec (List.insertionSort (· ≤ ·)
        ([0, 1048576].map (stripeIndex (fun a => a)))) := by
  refine ⟨by decide, by decide, by decide, by decide⟩

/-- C2 (amended): `lockWriteSet` builds `lock_set_` from the distinct
`TMVar` *addresses* of the write-set entries, sorted ascending and
deduplicated, and acquires each address's stripe lock once per distinct
address in that order; consequently, when two distinct `TMVar`s in the
write set hash to the same stripe, that stripe's lock is acquired (at
least) twice. -/
theorem c2_lockset_amended (hashPtr : Nat → Nat) (wsetAddrs : List Nat) :
    (mvLockSet wsetAddrs).Sorted (· ≤ ·) ∧
    (mvLockSet wsetAddrs).Nodup ∧
    (∀ a, a ∈ mvLockSet wsetAddrs ↔ a ∈ wsetAddrs) ∧
    mvStripeAcquisitions hashPtr wsetAddrs =
      (mvLockSet wsetAddrs).map (stripeIndex hashPtr) ∧
    (∀ a b, a ∈ wsetAddrs → b ∈ wsetAddrs → a ≠ b →
      stripeIndex hashPtr a = stripeIndex hashPtr b →
      2 ≤ (mvStripeAcquisitions hashPtr wsetAddrs).count (stripeIndex hashPtr a)) := by
  have hsorted : (List.insertionSort (· ≤ ·) wsetAddrs).Sorted (· ≤ ·) :=
    List.sorted_insertionSort (· ≤ ·) wsetAddrs
  have hlt : (mvLockSet wsetAddrs).Pairwise (· < ·) :=
    uniqueConsec_chain_lt _ hsorted
  have hmem : ∀ a, a ∈ mvLockSet wsetAddrs ↔ a ∈ wsetAddrs := by
    intro a
    rw [mvLockSet, mem_uniqueConsec]
    exact (List.perm_insertionSort (· ≤ ·) wsetAddrs).mem_iff
  refine ⟨hlt.imp Nat.le_of_lt, hlt.imp Nat.ne_of_lt, hmem, rfl, ?_⟩
  intro a b haw hbw hne hcollide
  exact count_map_ge_two ((hmem a).mpr haw) ((hmem b).mpr hbw) hne hcollide

/-- C2 witness: the amended statement on the colliding pair, via the
identity pointer hash: stripe `0` is acquired twice. -/
theorem c2_lockset_amended_witness :
    2 ≤ (mvStripeAcquisitions (fun a => a) [0, 1048576]).count 0 := by
  have h := (c2_lockset_amended (fun a => a) [0, 1048576]).2.2.2.2
    0 1048576 (by decide) (by decide) (by decide) (by decide)
  simpa [stripeIndex, kLockTableSize] using h

/-! ## Descriptor reset and the retry driver
(include/MVOSTM/TransactionDescriptor.hpp lines 47–79,
include/CaSTM/STM.hpp lines 29–72)

The shared TMVar heap is a map from variable address to version chain.
`TransactionDescriptor::reset` clears the read/lock sets and runs
`clearWriteSet_`, which invokes `entry.deleter(entry.new_node)` for every
entry whose `new_node` is still non-null. `STM::atomically` runs attempts
in a loop; each attempt of the user closure `f` either returns normally
having logged a write set, throws `RetryException`, or throws a user
exception. The boolean `valid` carried by a normal attempt is the outcome
of `commit`'s `validateReadSet()` — it depends on concurrent writers not
representable in this sequential embedding, so it enters as an input. -/

/-- The nodes reclaimed by `TransactionDescriptor::clearWriteSet_`: the
deleter runs exactly on the entries whose `new_node` is still set. -/
def clearWriteSetReclaims {α : Type} (ws : List (WriteEntry α)) : List (Version α) :=
  ws.filterMap (fun e => e.newNode)

/-- The write-back loop of `Transaction::commit`: for each entry, run
`TMVar::committer(addr, new_node, wv)` on that variable's chain (keeping
the retained prefix) and null the entry's `new_node`. Returns the updated
heap and the scrubbed write set. -/
def commitWriteBack {α : Type} (store : Nat → List (Version α)) :
    List (WriteEntry α) → Nat → (Nat → List (Version α)) × List (WriteEntry α)
  | [], _ => (store, [])
  | e :: rest, wv =>
    let store' :=
      match e.newNode with
      | some n =>
        fun a => if a = e.tmvarAddr then (committer wv n.payload (store e.tmvarAddr)).1
                 else store a
      | none => store
    let r := commitWriteBack store' rest wv
    (r.1, { e with newNode := none } :: r.2)

/-- What one attempt of the user closure inside `atomically` does. -/
inductive TryOutcome (α ρ : Type) where
  | ok (r : ρ) (ws : List (WriteEntry α)) (valid : Bool) : TryOutcome α ρ
  | retryExn : TryOutcome α ρ
  | userExn (e : Nat) : TryOutcome α ρ

/-- How `STM::atomically` terminates. -/
inductive AtomResult (ρ : Type) where
  | committed (r : ρ) : AtomResult ρ
  | raised (e : Nat) : AtomResult ρ
  | spun : AtomResult ρ
deriving Repr

/-- The retry loop of `STM::atomically` (CaSTM/STM.hpp) threading the TMVar
heap and the global clock through a sequence of attempt outcomes:
a `RetryException` yields and loops; any other exception propagates out
(past `EBRManager::leave()`) with the heap untouched; a normal return with
an empty write set is the read-only fast-path commit; otherwise `commit`
ticks the clock (`GlobalClock::tick()` returns the incremented value, used
as `wv`), and on successful validation publishes the write set, while on
failed validation it unlocks and loops. An exhausted outcome list means
the source loop is still spinning. -/
def atomicallyRun {α ρ : Type} (store : Nat → List (Version α)) (clock : Nat) :
    List (TryOutcome α ρ) → AtomResult ρ × (Nat → List (Version α)) × Nat
  | [] => (AtomResult.spun, store, clock)
  | TryOutcome.userExn e :: _ => (AtomResult.raised e, store, clock)
  | TryOutcome.retryExn :: rest => atomicallyRun store clock rest
  | TryOutcome.ok r [] _ :: _ => (AtomResult.committed r, store, clock)
  | TryOutcome.ok r (w :: ws) valid :: rest =>
    if valid then
      (AtomResult.committed r, (commitWriteBack store (w :: ws) (clock + 1)).1, clock + 1)
    else atomicallyRun store (clock + 1) rest

/-- An attempt that does not commit: a `Retry` or a read-write attempt
whose validation failed. -/
def NonCommitting {α ρ : Type} : TryOutcome α ρ → Prop
  | TryOutcome.ok _ ws valid => ws ≠ [] ∧ valid = false
  | TryOutcome.retryExn => True
  | TryOutcome.userExn _ => False

theorem commitWriteBack_scrubbed {α : Type} (ws : List (WriteEntry α)) :
    ∀ (store : Nat → List (Version α)) (wv : Nat),
      (commitWriteBack store ws wv).2 =
        ws.map (fun e => { e with newNode := none }) := by
  induction ws with
  | nil => intro store wv; rfl
  | cons e rest ih =>
    intro store wv
    simp only [commitWriteBack, List.map_cons]
    rw [ih]

/-- C6: a user exception other than `Retry` propagates out of `atomically`
unchanged, after any number of non-committing attempts, with every TMVar
chain exactly as it was (no committer ran); `reset`'s `clearWriteSet_`
runs the deleter on precisely the entries whose `new_node` is still set;
and after the commit write-back every entry's `new_node` is nulled, so a
subsequent reset reclaims nothing (published nodes are never
double-freed). -/
theorem c6_exception_semantics {α ρ : Type} :
    (∀ (store : Nat → List (Version α)) (clock : Nat)
        (pre : List (TryOutcome α ρ)) (e : Nat) (rest : List (TryOutcome α ρ)),
      (∀ o ∈ pre, NonCommitting o) →
      (atomicallyRun store clock (pre ++ TryOutcome.userExn e :: rest)).1 =
        AtomResult.raised e ∧
      (atomicallyRun store clock (pre ++ TryOutcome.userExn e :: rest)).2.1 = store) ∧
    (∀ (ws : List (WriteEntry α)) (n : Version α),
      n ∈ clearWriteSetReclaims ws ↔ ∃ e ∈ ws, e.newNode = some n) ∧
    (∀ (store : Nat → List (Version α)) (ws : List (WriteEntry α)) (wv : Nat),
      clearWriteSetReclaims (commitWriteBack store ws wv).2 = []) := by
  refine ⟨?_, ?_, ?_⟩
  · intro store clock pre e rest hpre
    induction pre generalizing clock with
    | nil => exact ⟨rfl, rfl⟩
    | cons o pres ih =>
      have ho : NonCommitting o := hpre o (List.mem_cons_self o pres)
      have hrest : ∀ o' ∈ pres, NonCommitting (α := α) (ρ := ρ) o' :=
        fun o' h => hpre o' (List.mem_cons_of_mem o h)
      cases o with
      | userExn e' => exact absurd ho (by simp [NonCommitting])
      | retryExn =>
        simpa [atomicallyRun] using ih clock hrest
      | ok r ws valid =>
        obtain ⟨hws, hvalid⟩ := ho
        subst hvalid
        cases ws with
        | nil => exact absurd rfl hws
        | cons w ws' =>
          simpa [atomicallyRun] using ih (clock + 1) hrest
  · intro ws n
    simp [clearWriteSetReclaims, List.mem_filterMap]
  · intro store ws wv
    rw [clearWriteSetReclaims, commitWriteBack_scrubbed]
    induction ws with
    | nil => simp
    | cons e rest ih => simp [ih]

/-- C6 witness: after a failed-validation read-write attempt, a user
exception (id 7) in the next attempt aborts `atomically` with that very
exception and an unchanged heap. -/
theorem c6_exception_semantics_witness :
    (atomicallyRun (fun _ => ([] : List (Version Nat))) 0
      ([TryOutcome.retryExn,
        TryOutcome.ok (0 : Nat) [WriteEntry.mk 5 (some (Version.mk 0 9))] false] ++
        TryOutcome.userExn 7 :: [])).1 = AtomResult.raised 7 ∧
    (atomicallyRun (fun _ => ([] : List (Version Nat))) 0
      ([TryOutcome.retryExn,
        TryOutcome.ok (0 : Nat) [WriteEntry.mk 5 (some (Version.mk 0 9))] false] ++
        TryOutcome.userExn 7 :: [])).2.1 3 = [] := by
  have h := (c6_exception_semantics (α := Nat) (ρ := Nat)).1
    (fun _ => []) 0
    [TryOutcome.retryExn,
     TryOutcome.ok (0 : Nat) [WriteEntry.mk 5 (some (Version.mk 0 9))] false]
    7 []
    (by
      intro o ho
      rcases List.mem_cons.mp ho with h1 | h1
      · subst h1; trivial
      · rcases List.mem_cons.mp h1 with h2 | h2
        · subst h2; exact ⟨by simp, rfl⟩
        · simp at h2)
  exact ⟨h.1, by rw [h.2]⟩

end CaSTM
